import Mathlib

/-!
Shallow embedding of lcoin's src/lib/primitives/abstractblock.js.

The source file defines AbstractBlock, the base of all block-like objects:
six consensus fields (version, prevBlock, merkleRoot, ts, bits, nonce), a
mutability flag, and cached derived values (_hash, _hhash, _size, _witness).
Stateful prototype methods become explicit state-passing functions on the
structure AbstractBlock below.  JS numbers are modelled as Int (the type
checks use util.isNumber, which only requires a finite number); hash strings
are modelled as the 32-byte lists they denote, with hexadecimal rendering
made explicit where the code renders to hex.  The external collaborators
(hash256, scrypt, consensus.verifyPOW) are pure functions per the spec and
are passed as explicit parameters.
-/

/-- Byte sequences: lists of naturals (each conceptually below 256). -/
abbrev Bytes := List Nat

/-- Modelled from the spec: the general purpose double digest hash256
(HashFunctions collaborator, src/lib/crypto not under src/); treated as a
pure function from bytes to bytes and passed as a parameter. -/
abbrev HashFn := Bytes → Bytes

/-- Modelled from the spec: the memory-hard key-derivation hash
(scrypt-class), parameterized by password, salt, cost, block size,
parallelization and output length. -/
abbrev ScryptFn := Bytes → Bytes → Nat → Nat → Nat → Nat → Bytes

/-- Modelled from the spec: consensus.verifyPOW, deciding pass or fail from
a proof-of-work hash and the compact difficulty encoding bits. -/
abbrev PowCheckFn := Bytes → Int → Bool

/-- Modelled from the spec: encoding.NULL_HASH, the all-zero 32-byte hash
sentinel used by the default constructor. -/
def NULL_HASH : Bytes := List.replicate 32 0

/-- The state of an AbstractBlock instance: the six consensus fields, the
mutable flag, and the derived-value caches (the transaction vector is out
of this core's scope and carried by concrete variants). -/
structure AbstractBlock where
  version : Int
  prevBlock : Bytes
  merkleRoot : Bytes
  ts : Int
  bits : Int
  nonce : Int
  mutable : Bool
  _hash : Option Bytes
  _hhash : Option (List Char)
  _size : Int
  _witness : Int
  deriving Repr, DecidableEq

/-- The AbstractBlock constructor defaults (abstractblock.js lines 41-54). -/
def AbstractBlock.init : AbstractBlock :=
  { version := 1
    prevBlock := NULL_HASH
    merkleRoot := NULL_HASH
    ts := 0
    bits := 0
    nonce := 0
    mutable := false
    _hash := none
    _hhash := none
    _size := -1
    _witness := -1 }

/-- Two headers agree on the six consensus fields. -/
def AbstractBlock.consensusEq (a b : AbstractBlock) : Prop :=
  a.version = b.version ∧ a.prevBlock = b.prevBlock ∧
  a.merkleRoot = b.merkleRoot ∧ a.ts = b.ts ∧
  a.bits = b.bits ∧ a.nonce = b.nonce

instance (a b : AbstractBlock) : Decidable (a.consensusEq b) := by
  unfold AbstractBlock.consensusEq; infer_instance

/-- Modelled from the spec: StaticWriter.writeU32 (BinaryCodec collaborator,
src/lib/utils not under src/) — little-endian unsigned 32-bit encoding. -/
def u32LE (i : Int) : Bytes :=
  let n : Nat := (i % 4294967296).toNat
  [n % 256, n / 256 % 256, n / 65536 % 256, n / 16777216 % 256]

/-- writeAbbr (lines 207-215): appends, in fixed order, little-endian 32-bit
version, the 32-byte prevBlock, the 32-byte merkleRoot, then little-endian
32-bit ts, bits and nonce to the writer (modelled as the byte list written
so far). -/
def AbstractBlock.writeAbbr (b : AbstractBlock) (bw : Bytes) : Bytes :=
  bw ++ u32LE b.version ++ b.prevBlock ++ b.merkleRoot ++
    u32LE b.ts ++ u32LE b.bits ++ u32LE b.nonce

/-- abbr (lines 198-200): render writeAbbr into a fresh 80-byte writer. -/
def AbstractBlock.abbr (b : AbstractBlock) : Bytes :=
  b.writeAbbr []

/-- Error taxonomy of the spec: InvalidData (input object absent),
TypeMismatch (wrong field shape), TruncatedInput (wire decode ran out of
bytes). The source raises these as assertion or reader errors. -/
inductive BlockErr where
  | InvalidData
  | TypeMismatch
  | TruncatedInput
  deriving Repr, DecidableEq

/-- Modelled from the spec: BufferReader byte consumption — take n bytes
from the front, failing when fewer remain. -/
def readBytes (n : Nat) (bs : Bytes) : Option (Bytes × Bytes) :=
  if n ≤ bs.length then some (bs.take n, bs.drop n) else none

/-- Modelled from the spec: BufferReader.readU32 — consume four bytes and
combine them little-endian; fails when fewer than four bytes remain. -/
def readU32 (bs : Bytes) : Option (Nat × Bytes) :=
  match bs with
  | b0 :: b1 :: b2 :: b3 :: rest =>
      some (b0 + 256 * b1 + 65536 * b2 + 16777216 * b3, rest)
  | _ => none

/-- parseAbbr (lines 222-230): reads version, prevBlock, merkleRoot, ts,
bits, nonce in order from the reader, assigning them onto the header.  A
reader failure is the TruncatedInput error (the reader throws; the Except
carries the raised error, so no header value reaches the caller). -/
def AbstractBlock.parseAbbr (b : AbstractBlock) (bs : Bytes) :
    Except BlockErr AbstractBlock :=
  match readU32 bs with
  | none => .error .TruncatedInput
  | some (v, r1) =>
    match readBytes 32 r1 with
    | none => .error .TruncatedInput
    | some (pb, r2) =>
      match readBytes 32 r2 with
      | none => .error .TruncatedInput
      | some (mr, r3) =>
        match readU32 r3 with
        | none => .error .TruncatedInput
        | some (t, r4) =>
          match readU32 r4 with
          | none => .error .TruncatedInput
          | some (bi, r5) =>
            match readU32 r5 with
            | none => .error .TruncatedInput
            | some (n, _) =>
              .ok { b with
                version := (v : Int)
                prevBlock := pb
                merkleRoot := mr
                ts := (t : Int)
                bits := (bi : Int)
                nonce := (n : Int) }

/-- A dynamically typed JS field value, as inspected by the construction
paths: a number, a string (a hash string modelled by the bytes it denotes),
an absent field, or any other value. -/
inductive JSField where
  | num : Int → JSField
  | str : Bytes → JSField
  | missing
  | other
  deriving Repr, DecidableEq

/-- Modelled from the spec: util.isNumber — true exactly for a (finite)
numeric value; no sign or integrality restriction. -/
def isNumber : JSField → Bool
  | .num _ => true
  | _ => false

/-- The JS typeof-string test used on prevBlock and merkleRoot. -/
def isString : JSField → Bool
  | .str _ => true
  | _ => false

/-- An options or json input object: the six header fields as dynamic
values, plus the optional mutable flag. -/
structure NakedBlock where
  version : JSField
  prevBlock : JSField
  merkleRoot : JSField
  ts : JSField
  bits : JSField
  nonce : JSField
  mutable : Option Bool
  deriving Repr, DecidableEq

/-- parseOptions (lines 72-92): asserts options is present (InvalidData)
and that version, ts, bits, nonce are numbers and prevBlock, merkleRoot are
strings (TypeMismatch), all before any assignment; then copies the six
fields verbatim and sets mutable from the optional flag when one is
present.  Caches are not touched. -/
def AbstractBlock.parseOptions (b : AbstractBlock)
    (options : Option NakedBlock) : Except BlockErr AbstractBlock :=
  match options with
  | none => .error .InvalidData
  | some o =>
    match o.version, o.prevBlock, o.merkleRoot, o.ts, o.bits, o.nonce with
    | .num v, .str pb, .str mr, .num t, .num bi, .num n =>
      let b1 := { b with
        version := v, prevBlock := pb, merkleRoot := mr,
        ts := t, bits := bi, nonce := n }
      .ok (match o.mutable with
           | some m => { b1 with mutable := m }
           | none => b1)
    | _, _, _, _, _, _ => .error .TypeMismatch

/-- Modelled from the spec: util.revHex on a hash string reverses the byte
order; on the byte-list model of the hash string this is list reversal. -/
def revHex (bs : Bytes) : Bytes := bs.reverse

/-- parseJSON (lines 100-117): identical presence and type checks to
parseOptions, but prevBlock and merkleRoot are byte-order-reversed on
entry, and the mutable flag of the input is ignored. -/
def AbstractBlock.parseJSON (b : AbstractBlock) (json : Option NakedBlock) :
    Except BlockErr AbstractBlock :=
  match json with
  | none => .error .InvalidData
  | some o =>
    match o.version, o.prevBlock, o.merkleRoot, o.ts, o.bits, o.nonce with
    | .num v, .str pb, .str mr, .num t, .num bi, .num n =>
      .ok { b with
        version := v, prevBlock := revHex pb, merkleRoot := revHex mr,
        ts := t, bits := bi, nonce := n }
    | _, _, _, _, _, _ => .error .TypeMismatch

/-- The internal _refresh (lines 124-142) restricted to the header caches:
clears both hash caches and both size caches (the transaction-refresh
propagation concerns the txs vector owned by concrete variants). -/
def AbstractBlock._refresh (b : AbstractBlock) : AbstractBlock :=
  { b with _hash := none, _hhash := none, _size := -1, _witness := -1 }

/-- refresh (lines 149-151): delegates to _refresh. -/
def AbstractBlock.refresh (b : AbstractBlock) : AbstractBlock :=
  b._refresh

/-- The lowercase hexadecimal digit alphabet used by hex rendering. -/
def hexDigitChar (n : Nat) : Char :=
  ("0123456789abcdef".toList).getD n '0'

/-- Modelled from the spec: Buffer.toString with hex encoding — the
lowercase hexadecimal rendering of a byte sequence, two digits per byte,
high nibble first. -/
def hexOf : Bytes → List Char
  | [] => []
  | b :: bs => hexDigitChar (b / 16) :: hexDigitChar (b % 16) :: hexOf bs

/-- hash (lines 159-180), raw-bytes path (enc not hex): return the cached
_hash when present, otherwise hash256 of abbr, caching the result unless
the header is mutable.  Returns the hash together with the updated state. -/
def AbstractBlock.hashRaw (H : HashFn) (b : AbstractBlock) :
    Bytes × AbstractBlock :=
  match b._hash with
  | some h => (h, b)
  | none =>
    let h := H b.abbr
    if b.mutable then (h, b) else (h, { b with _hash := some h })

/-- hash (lines 159-180) with enc hex: first obtain the raw hash exactly as
hashRaw does, then return the cached _hhash when present, otherwise render
the just-obtained raw hash to hex, caching unless mutable. -/
def AbstractBlock.hashHex (H : HashFn) (b : AbstractBlock) :
    List Char × AbstractBlock :=
  let p := b.hashRaw H
  match p.2._hhash with
  | some hex => (hex, p.2)
  | none =>
    let hex := hexOf p.1
    if p.2.mutable then (hex, p.2)
    else (hex, { p.2 with _hhash := some hex })

/-- powHash (lines 188-191): the scrypt digest of the 80-byte canonical
encoding used as both password and salt, cost 1024, block size 1,
parallelization 1, 32-byte output. -/
def AbstractBlock.powHash (S : ScryptFn) (b : AbstractBlock) : Bytes :=
  let data := b.abbr
  S data data 1024 1 1 32

/-- verifyPOW (lines 252-254): delegate to consensus.verifyPOW with the
proof-of-work hash and bits. -/
def AbstractBlock.verifyPOW (C : PowCheckFn) (S : ScryptFn)
    (b : AbstractBlock) : Bool :=
  C (b.powHash S) b.bits

/-- verify (lines 237-245): fail when verifyPOW fails, otherwise fail when
the delegated verifyBody fails, otherwise pass.  The second component
records whether verifyBody was invoked (it is an abstract capability of the
concrete variant, modelled as a boolean oracle on the header). -/
def AbstractBlock.verify (C : PowCheckFn) (S : ScryptFn)
    (body : AbstractBlock → Bool) (b : AbstractBlock) : Bool × Bool :=
  if !(b.verifyPOW C S) then (false, false)
  else if !(body b) then (false, true)
  else (true, true)

/-- Modelled from the spec: util.revHex on a hexadecimal character string —
the string is re-assembled two characters (one byte) at a time in reverse
order. -/
def revHexStr : List Char → List Char
  | a :: c :: rest => revHexStr rest ++ [a, c]
  | l => l

/-- rhash (lines 272-274): the hex identity hash with byte order
reversed. -/
def AbstractBlock.rhash (H : HashFn) (b : AbstractBlock) :
    List Char × AbstractBlock :=
  let p := b.hashHex H
  (revHexStr p.1, p.2)

/-! Helper lemmas about the modelled codec. -/

theorem readU32_u32LE (i : Int) (h0 : 0 ≤ i) (h1 : i < 4294967296)
    (rest : Bytes) : readU32 (u32LE i ++ rest) = some (i.toNat, rest) := by
  have hmod : i % 4294967296 = i := Int.emod_eq_of_lt h0 h1
  have hlt : i.toNat < 4294967296 := by omega
  simp only [u32LE, hmod, List.cons_append, List.nil_append, readU32,
    Option.some.injEq, Prod.mk.injEq]
  exact ⟨by omega, trivial⟩

theorem readBytes_exact (n : Nat) (l : Bytes) (h : l.length = n)
    (r : Bytes) : readBytes n (l ++ r) = some (l, r) := by
  have hle : n ≤ l.length + r.length := by omega
  simp [readBytes, hle, List.take_left' h, List.drop_left' h]

theorem readU32_u32LE_self (i : Int) (h0 : 0 ≤ i) (h1 : i < 4294967296) :
    readU32 (u32LE i) = some (i.toNat, []) := by
  have h := readU32_u32LE i h0 h1 []
  rwa [List.append_nil] at h

theorem readBytes_some_length (n : Nat) (bs l r : Bytes)
    (h : readBytes n bs = some (l, r)) : bs.length = n + r.length := by
  by_cases hle : n ≤ bs.length
  · simp only [readBytes, if_pos hle, Option.some.injEq, Prod.mk.injEq] at h
    obtain ⟨-, h2⟩ := h
    subst h2
    simp only [List.length_drop]
    omega
  · simp [readBytes, hle] at h

theorem readU32_some_length (bs : Bytes) (v : Nat) (r : Bytes)
    (h : readU32 bs = some (v, r)) : bs.length = 4 + r.length := by
  rcases bs with _ | ⟨b0, _ | ⟨b1, _ | ⟨b2, _ | ⟨b3, rest⟩⟩⟩⟩ <;>
    simp only [readU32, Option.some.injEq, Prod.mk.injEq,
      reduceCtorEq] at h
  obtain ⟨-, h2⟩ := h
  subst h2
  simp
  omega

theorem readU32_short (bs : Bytes) (h : bs.length < 4) : readU32 bs = none := by
  rcases bs with _ | ⟨b0, _ | ⟨b1, _ | ⟨b2, _ | ⟨b3, rest⟩⟩⟩⟩
  · rfl
  · rfl
  · rfl
  · rfl
  · exfalso
    simp only [List.length_cons] at h
    omega

theorem readBytes_short (n : Nat) (bs : Bytes) (h : bs.length < n) :
    readBytes n bs = none := by
  rw [readBytes, if_neg]
  omega

/-- C1: writeAbbr rendered by abbr produces exactly 80 bytes laid out as
little-endian 32-bit version, 32-byte prevBlock, 32-byte merkleRoot, then
little-endian 32-bit ts, bits, nonce, and parseAbbr on those bytes yields a
header equal to the original on the six consensus fields. -/
theorem C1_abbr_roundtrip (b t : AbstractBlock)
    (hv0 : 0 ≤ b.version) (hv1 : b.version < 4294967296)
    (ht0 : 0 ≤ b.ts) (ht1 : b.ts < 4294967296)
    (hb0 : 0 ≤ b.bits) (hb1 : b.bits < 4294967296)
    (hn0 : 0 ≤ b.nonce) (hn1 : b.nonce < 4294967296)
    (hpb : b.prevBlock.length = 32) (hmr : b.merkleRoot.length = 32) :
    b.abbr.length = 80 ∧
    ∃ b2, t.parseAbbr b.abbr = .ok b2 ∧ b2.consensusEq b := by
  have habbr : b.abbr =
      u32LE b.version ++ (b.prevBlock ++ (b.merkleRoot ++
        (u32LE b.ts ++ (u32LE b.bits ++ u32LE b.nonce)))) := by
    simp [AbstractBlock.abbr, AbstractBlock.writeAbbr]
  constructor
  · rw [habbr]
    simp [u32LE, hpb, hmr]
  · rw [habbr]
    simp only [AbstractBlock.parseAbbr,
      readU32_u32LE b.version hv0 hv1,
      readBytes_exact 32 b.prevBlock hpb,
      readBytes_exact 32 b.merkleRoot hmr,
      readU32_u32LE b.ts ht0 ht1,
      readU32_u32LE b.bits hb0 hb1,
      readU32_u32LE_self b.nonce hn0 hn1]
    refine ⟨_, rfl, ?_⟩
    unfold AbstractBlock.consensusEq
    refine ⟨?_, rfl, rfl, ?_, ?_, ?_⟩
    · exact Int.toNat_of_nonneg hv0
    · exact Int.toNat_of_nonneg ht0
    · exact Int.toNat_of_nonneg hb0
    · exact Int.toNat_of_nonneg hn0

theorem C1_abbr_roundtrip_witness :
    AbstractBlock.init.abbr.length = 80 ∧
    ∃ b2, AbstractBlock.init.parseAbbr AbstractBlock.init.abbr = .ok b2 ∧
      b2.consensusEq AbstractBlock.init :=
  C1_abbr_roundtrip AbstractBlock.init AbstractBlock.init
    (by decide) (by decide) (by decide) (by decide) (by decide) (by decide)
    (by decide) (by decide) (by decide) (by decide)

/-! Reduction lemmas for the hashing state machine. -/

theorem hashRaw_cached (H : HashFn) (b : AbstractBlock) (h : Bytes)
    (hh : b._hash = some h) : b.hashRaw H = (h, b) := by
  simp [AbstractBlock.hashRaw, hh]

theorem hashRaw_mut (H : HashFn) (b : AbstractBlock)
    (hh : b._hash = none) (hm : b.mutable = true) :
    b.hashRaw H = (H b.abbr, b) := by
  simp [AbstractBlock.hashRaw, hh, hm]

theorem hashRaw_immut (H : HashFn) (b : AbstractBlock)
    (hh : b._hash = none) (hm : b.mutable = false) :
    b.hashRaw H = (H b.abbr, { b with _hash := some (H b.abbr) }) := by
  simp [AbstractBlock.hashRaw, hh, hm]

/-- The relation the code maintains between the two hash caches: whenever
the hex cache is populated, the raw cache is populated too and the hex
cache is exactly its hexadecimal rendering. -/
def AbstractBlock.hexConsistent (b : AbstractBlock) : Prop :=
  ∀ hex, b._hhash = some hex → ∃ h, b._hash = some h ∧ hex = hexOf h

def mockHash256 : HashFn := fun l => l

/-- C2: hash with hex encoding returns exactly the lowercase hexadecimal
rendering of the raw bytes returned by hash; calling the raw hash twice on
a header returns byte-identical results; and since the hex cache is only
ever derived from the already obtained raw hash, the cache-consistency
relation is preserved, so raw and hex results never diverge. -/
theorem C2_hash_hex_consistent (H : HashFn) (b : AbstractBlock)
    (hinv : b.hexConsistent) :
    (b.hashHex H).1 = hexOf (b.hashRaw H).1 ∧
    ((b.hashRaw H).2.hashRaw H).1 = (b.hashRaw H).1 ∧
    (b.hashHex H).2.hexConsistent := by
  cases hh : b._hash with
  | some h =>
    have hr : b.hashRaw H = (h, b) := hashRaw_cached H b h hh
    cases hx : b._hhash with
    | some hex =>
      obtain ⟨h2, hh2, hxeq⟩ := hinv hex hx
      rw [hh] at hh2
      injection hh2 with h2eq
      subst h2eq
      subst hxeq
      refine ⟨?_, ?_, ?_⟩
      · simp [AbstractBlock.hashHex, hr, hx]
      · simp [hr, hashRaw_cached H b h hh]
      · simp only [AbstractBlock.hashHex, hr, hx]
        exact hinv
    | none =>
      refine ⟨?_, ?_, ?_⟩
      · simp only [AbstractBlock.hashHex, hr, hx]
        split <;> rfl
      · simp [hr, hashRaw_cached H b h hh]
      · by_cases hm : b.mutable
        · simp only [AbstractBlock.hashHex, hr, hx, hm, if_true]
          exact hinv
        · simp only [AbstractBlock.hashHex, hr, hx, hm, if_false,
            Bool.false_eq_true]
          intro hex2 he2
          simp only [Option.some.injEq] at he2
          exact ⟨h, hh, he2.symm⟩
  | none =>
    by_cases hm : b.mutable
    · have hr : b.hashRaw H = (H b.abbr, b) := hashRaw_mut H b hh hm
      cases hx : b._hhash with
      | some hex =>
        obtain ⟨h2, hh2, -⟩ := hinv hex hx
        rw [hh] at hh2
        exact absurd hh2 (by simp)
      | none =>
        refine ⟨?_, ?_, ?_⟩
        · simp [AbstractBlock.hashHex, hr, hx, hm]
        · simp [hr, hashRaw_mut H b hh hm]
        · simp only [AbstractBlock.hashHex, hr, hx, hm, if_true]
          exact hinv
    · have hm' : b.mutable = false := by
        revert hm
        cases b.mutable <;> simp
      have hr : b.hashRaw H =
          (H b.abbr, { b with _hash := some (H b.abbr) }) :=
        hashRaw_immut H b hh hm'
      cases hx : b._hhash with
      | some hex =>
        obtain ⟨h2, hh2, -⟩ := hinv hex hx
        rw [hh] at hh2
        exact absurd hh2 (by simp)
      | none =>
        refine ⟨?_, ?_, ?_⟩
        · simp only [AbstractBlock.hashHex, hr, hx]
          split <;> rfl
        · rw [hr]
          simp [AbstractBlock.hashRaw]
        · simp only [AbstractBlock.hashHex, hr, hx, hm', if_false,
            Bool.false_eq_true]
          intro hex2 he2
          simp only [Option.some.injEq] at he2
          exact ⟨H b.abbr, rfl, he2.symm⟩

theorem C2_hash_hex_consistent_witness :
    (AbstractBlock.init.hashHex mockHash256).1 =
      hexOf (AbstractBlock.init.hashRaw mockHash256).1 ∧
    ((AbstractBlock.init.hashRaw mockHash256).2.hashRaw mockHash256).1 =
      (AbstractBlock.init.hashRaw mockHash256).1 ∧
    (AbstractBlock.init.hashHex mockHash256).2.hexConsistent :=
  C2_hash_hex_consistent mockHash256 AbstractBlock.init
    (fun hex h => absurd h (by simp [AbstractBlock.init]))

/-- Congruence: the canonical encoding depends only on the six consensus
fields. -/
theorem abbr_congr (a b : AbstractBlock) (h : a.consensusEq b) :
    a.abbr = b.abbr := by
  obtain ⟨h1, h2, h3, h4, h5, h6⟩ := h
  simp [AbstractBlock.abbr, AbstractBlock.writeAbbr, h1, h2, h3, h4, h5, h6]

/-- C3: powHash is the scrypt digest of the 80-byte canonical encoding used
as both password and salt with cost 1024, block size 1, parallelization 1
and 32-byte output, and it is a pure function of the six consensus fields:
headers agreeing on those fields give identical PoW hashes regardless of
the mutable flag or any cache state. -/
theorem C3_powHash_pure (S : ScryptFn) (a b : AbstractBlock)
    (h : a.consensusEq b) :
    a.powHash S = S a.abbr a.abbr 1024 1 1 32 ∧
    a.powHash S = b.powHash S := by
  refine ⟨rfl, ?_⟩
  unfold AbstractBlock.powHash
  rw [abbr_congr a b h]

def mockScrypt : ScryptFn := fun pw _salt _n _r _p _len => pw

theorem C3_powHash_pure_witness :
    AbstractBlock.init.powHash mockScrypt =
      mockScrypt AbstractBlock.init.abbr AbstractBlock.init.abbr 1024 1 1 32 ∧
    AbstractBlock.init.powHash mockScrypt =
      ({ AbstractBlock.init with mutable := true }).powHash mockScrypt :=
  C3_powHash_pure mockScrypt AbstractBlock.init
    { AbstractBlock.init with mutable := true }
    ⟨rfl, rfl, rfl, rfl, rfl, rfl⟩

/-- C4: verify returns pass exactly when both verifyPOW and the delegated
body check pass, checks verifyPOW first, and when verifyPOW fails it
returns failure without invoking the body check (the second component of
verify records whether the body oracle was invoked). -/
theorem C4_verify_short_circuit (C : PowCheckFn) (S : ScryptFn)
    (body : AbstractBlock → Bool) (b : AbstractBlock) :
    (AbstractBlock.verify C S body b).1 = (b.verifyPOW C S && body b) ∧
    (b.verifyPOW C S = false →
      AbstractBlock.verify C S body b = (false, false)) := by
  unfold AbstractBlock.verify
  cases hp : b.verifyPOW C S <;> cases hb : body b <;> simp

theorem C4_verify_short_circuit_witness :
    (AbstractBlock.verify (fun _ _ => false) mockScrypt (fun _ => true)
        AbstractBlock.init).1 =
      (AbstractBlock.init.verifyPOW (fun _ _ => false) mockScrypt &&
        (fun (_ : AbstractBlock) => true) AbstractBlock.init) ∧
    (AbstractBlock.init.verifyPOW (fun _ _ => false) mockScrypt = false →
      AbstractBlock.verify (fun _ _ => false) mockScrypt (fun _ => true)
        AbstractBlock.init = (false, false)) :=
  C4_verify_short_circuit (fun _ _ => false) mockScrypt (fun _ => true)
    AbstractBlock.init

/-- A structured options object carrying the default header fields except
for a changed version. -/
def staleOpts : NakedBlock :=
  { version := .num 2, prevBlock := .str NULL_HASH,
    merkleRoot := .str NULL_HASH, ts := .num 0, bits := .num 0,
    nonce := .num 0, mutable := none }

/-- The header reached by hashing the freshly constructed immutable header
and then re-parsing it from options with a changed version field. -/
def staleBlock : AbstractBlock :=
  match (AbstractBlock.init.hashRaw mockHash256).2.parseOptions
      (some staleOpts) with
  | .ok b => b
  | .error _ => AbstractBlock.init

/-- C5 counterexample: parseOptions is an exposed operation that mutates a
consensus field (version becomes 2) of an already-hashed immutable header
without invalidating the caches, so the next raw hash call observes the
stale cache: it returns the hash of the old encoding, not the hash of the
current fields. -/
theorem C5_stale_cache_counterexample :
    ((AbstractBlock.init.hashRaw mockHash256).2.parseOptions
        (some staleOpts) = .ok staleBlock) ∧
    staleBlock.version = 2 ∧
    staleBlock._hash = some (mockHash256 AbstractBlock.init.abbr) ∧
    (staleBlock.hashRaw mockHash256).1 ≠ mockHash256 staleBlock.abbr := by
  refine ⟨rfl, rfl, rfl, ?_⟩
  decide

/-- C5 amended: the construction paths (parseOptions, parseJSON,
parseAbbr) assign consensus fields without touching any cache; only
refresh invalidates, clearing all four caches; and hash recomputes from
the current fields whenever the raw cache is absent — so a fresh header
never observes a stale cache, but the core does not invalidate caches on
mutation, so re-parsing an already-hashed header leaves a stale cache
observable by a later hash call. -/
theorem C5_cache_invalidation_amended :
    (∀ (b : AbstractBlock) (o : Option NakedBlock) b2,
        b.parseOptions o = .ok b2 →
        b2._hash = b._hash ∧ b2._hhash = b._hhash ∧
        b2._size = b._size ∧ b2._witness = b._witness) ∧
    (∀ (b : AbstractBlock) (j : Option NakedBlock) b2,
        b.parseJSON j = .ok b2 →
        b2._hash = b._hash ∧ b2._hhash = b._hhash ∧
        b2._size = b._size ∧ b2._witness = b._witness) ∧
    (∀ (b : AbstractBlock) (bs : Bytes) b2,
        b.parseAbbr bs = .ok b2 →
        b2._hash = b._hash ∧ b2._hhash = b._hhash ∧
        b2._size = b._size ∧ b2._witness = b._witness) ∧
    (∀ b : AbstractBlock,
        b.refresh._hash = none ∧ b.refresh._hhash = none ∧
        b.refresh._size = -1 ∧ b.refresh._witness = -1) ∧
    (∀ (H : HashFn) (b : AbstractBlock), b._hash = none →
        (b.hashRaw H).1 = H b.abbr) := by
  refine ⟨?_, ?_, ?_, ?_, ?_⟩
  · intro b o b2 h
    cases o with
    | none => simp [AbstractBlock.parseOptions] at h
    | some o =>
      simp only [AbstractBlock.parseOptions] at h
      split at h
      · injection h with h'
        cases homut : o.mutable
        · rw [homut] at h'
          subst h'
          exact ⟨rfl, rfl, rfl, rfl⟩
        · rw [homut] at h'
          subst h'
          exact ⟨rfl, rfl, rfl, rfl⟩
      · injection h
  · intro b j b2 h
    cases j with
    | none => simp [AbstractBlock.parseJSON] at h
    | some o =>
      simp only [AbstractBlock.parseJSON] at h
      split at h
      · injection h with h'
        subst h'
        exact ⟨rfl, rfl, rfl, rfl⟩
      · injection h
  · intro b bs b2 h
    unfold AbstractBlock.parseAbbr at h
    repeat' split at h
    all_goals
      first
      | (injection h with h'; subst h'; exact ⟨rfl, rfl, rfl, rfl⟩)
      | injection h
  · intro b
    exact ⟨rfl, rfl, rfl, rfl⟩
  · intro H b hh
    cases hm : b.mutable
    · rw [hashRaw_immut H b hh hm]
    · rw [hashRaw_mut H b hh hm]

theorem C5_cache_invalidation_amended_witness :
    staleBlock._hash = (AbstractBlock.init.hashRaw mockHash256).2._hash :=
  (C5_cache_invalidation_amended.1
    (AbstractBlock.init.hashRaw mockHash256).2 (some staleOpts) staleBlock
    rfl).1

/-- A mutable header with the default fields and empty caches. -/
def mutBlockA : AbstractBlock := { AbstractBlock.init with mutable := true }

/-- A mutable header differing from mutBlockA in its nonce. -/
def mutBlockB : AbstractBlock :=
  { AbstractBlock.init with mutable := true, nonce := 1 }

/-- C6: for a mutable header with empty caches hash recomputes from the
current fields and leaves the state (hence both caches) untouched, so two
field-sets whose digests differ give different results; for an immutable
header the raw cache is populated lazily and a second call returns the
cached bytes without further change; and hash after refresh reflects the
current fields even when a hash was previously cached under different
values. -/
theorem C6_cache_mutability_law (H : HashFn) (bm b2 bi br : AbstractBlock)
    (hm : bm.mutable = true) (hhm : bm._hash = none)
    (hxm : bm._hhash = none)
    (hm2 : b2.mutable = true) (hh2 : b2._hash = none)
    (hne : H bm.abbr ≠ H b2.abbr)
    (hi : bi.mutable = false) (hhi : bi._hash = none) :
    (bm.hashRaw H = (H bm.abbr, bm)) ∧
    ((bm.hashHex H).2 = bm) ∧
    ((bm.hashRaw H).1 ≠ (b2.hashRaw H).1) ∧
    ((bi.hashRaw H).2._hash = some (H bi.abbr)) ∧
    ((bi.hashRaw H).2.hashRaw H = ((bi.hashRaw H).1, (bi.hashRaw H).2)) ∧
    ((br.refresh.hashRaw H).1 = H br.abbr) := by
  have hrm : bm.hashRaw H = (H bm.abbr, bm) := hashRaw_mut H bm hhm hm
  refine ⟨hrm, ?_, ?_, ?_, ?_, ?_⟩
  · simp [AbstractBlock.hashHex, hrm, hxm, hm]
  · rw [hrm, hashRaw_mut H b2 hh2 hm2]
    exact hne
  · rw [hashRaw_immut H bi hhi hi]
  · rw [hashRaw_immut H bi hhi hi]
    simp [AbstractBlock.hashRaw]
  · have hc : br.refresh.consensusEq br := ⟨rfl, rfl, rfl, rfl, rfl, rfl⟩
    have habbr := abbr_congr br.refresh br hc
    cases hm : br.mutable
    · rw [hashRaw_immut H br.refresh rfl hm, habbr]
    · rw [hashRaw_mut H br.refresh rfl hm, habbr]

theorem C6_cache_mutability_law_witness :
    (mutBlockA.hashRaw mockHash256 =
      (mockHash256 mutBlockA.abbr, mutBlockA)) ∧
    ((mutBlockA.hashHex mockHash256).2 = mutBlockA) ∧
    ((mutBlockA.hashRaw mockHash256).1 ≠ (mutBlockB.hashRaw mockHash256).1) ∧
    ((AbstractBlock.init.hashRaw mockHash256).2._hash =
      some (mockHash256 AbstractBlock.init.abbr)) ∧
    ((AbstractBlock.init.hashRaw mockHash256).2.hashRaw mockHash256 =
      ((AbstractBlock.init.hashRaw mockHash256).1,
       (AbstractBlock.init.hashRaw mockHash256).2)) ∧
    ((staleBlock.refresh.hashRaw mockHash256).1 =
      mockHash256 staleBlock.abbr) :=
  C6_cache_mutability_law mockHash256 mutBlockA mutBlockB
    AbstractBlock.init staleBlock rfl rfl rfl rfl rfl (by decide) rfl rfl

/-- The presence and type checks that parseOptions and parseJSON perform
on an input object. -/
def NakedBlock.wellTyped (o : NakedBlock) : Bool :=
  isNumber o.version && isString o.prevBlock && isString o.merkleRoot &&
    isNumber o.ts && isNumber o.bits && isNumber o.nonce

/-- C7: construction from an absent options object fails with InvalidData;
an options object whose version, ts, bits or nonce is not numeric or whose
prevBlock or merkleRoot is not a string (including a missing merkleRoot)
fails with TypeMismatch on both construction paths; decoding from fewer
than 80 wire bytes fails with TruncatedInput; in each case the result is
the raised error, so the caller receives no partially constructed
header. -/
theorem C7_malformed_rejection (b : AbstractBlock) (o : NakedBlock)
    (bs : Bytes) (hbad : o.wellTyped = false) (hshort : bs.length < 80) :
    b.parseOptions none = .error .InvalidData ∧
    b.parseOptions (some o) = .error .TypeMismatch ∧
    b.parseJSON (some o) = .error .TypeMismatch ∧
    b.parseAbbr bs = .error .TruncatedInput := by
  refine ⟨rfl, ?_, ?_, ?_⟩
  · simp only [AbstractBlock.parseOptions]
    split
    · simp_all [NakedBlock.wellTyped, isNumber, isString]
    · rfl
  · simp only [AbstractBlock.parseJSON]
    split
    · simp_all [NakedBlock.wellTyped, isNumber, isString]
    · rfl
  · rcases h1 : readU32 bs with _ | ⟨v, r1⟩
    · simp [AbstractBlock.parseAbbr, h1]
    · have l1 := readU32_some_length bs v r1 h1
      rcases h2 : readBytes 32 r1 with _ | ⟨pb, r2⟩
      · simp [AbstractBlock.parseAbbr, h1, h2]
      · have l2 := readBytes_some_length 32 r1 pb r2 h2
        rcases h3 : readBytes 32 r2 with _ | ⟨mr, r3⟩
        · simp [AbstractBlock.parseAbbr, h1, h2, h3]
        · have l3 := readBytes_some_length 32 r2 mr r3 h3
          rcases h4 : readU32 r3 with _ | ⟨t4, r4⟩
          · simp [AbstractBlock.parseAbbr, h1, h2, h3, h4]
          · have l4 := readU32_some_length r3 t4 r4 h4
            rcases h5 : readU32 r4 with _ | ⟨b5, r5⟩
            · simp [AbstractBlock.parseAbbr, h1, h2, h3, h4, h5]
            · have l5 := readU32_some_length r4 b5 r5 h5
              have h6 : readU32 r5 = none := readU32_short r5 (by omega)
              simp [AbstractBlock.parseAbbr, h1, h2, h3, h4, h5, h6]

/-- An options object whose merkleRoot field is absent. -/
def missingMrOpts : NakedBlock :=
  { version := .num 1, prevBlock := .str NULL_HASH,
    merkleRoot := .missing, ts := .num 0, bits := .num 0,
    nonce := .num 0, mutable := none }

theorem C7_malformed_rejection_witness :
    AbstractBlock.init.parseOptions none = .error .InvalidData ∧
    AbstractBlock.init.parseOptions (some missingMrOpts) =
      .error .TypeMismatch ∧
    AbstractBlock.init.parseJSON (some missingMrOpts) =
      .error .TypeMismatch ∧
    AbstractBlock.init.parseAbbr [] = .error .TruncatedInput :=
  C7_malformed_rejection AbstractBlock.init missingMrOpts []
    (by decide) (by decide)

/-! Hexadecimal rendering and byte-order reversal lemmas. -/

theorem revHexStr_cons2 (x y : Char) (l : List Char) :
    revHexStr (x :: y :: l) = revHexStr l ++ [x, y] := rfl

theorem hexOf_append (xs ys : Bytes) :
    hexOf (xs ++ ys) = hexOf xs ++ hexOf ys := by
  induction xs with
  | nil => rfl
  | cons a l ih => simp [hexOf, ih]

theorem revHexStr_hexOf (bs : Bytes) :
    revHexStr (hexOf bs) = hexOf (revHex bs) := by
  induction bs with
  | nil => rfl
  | cons a l ih =>
    show revHexStr (hexDigitChar (a / 16) :: hexDigitChar (a % 16) ::
      hexOf l) = hexOf (revHex (a :: l))
    rw [revHexStr_cons2, ih]
    show hexOf (revHex l) ++ [hexDigitChar (a / 16), hexDigitChar (a % 16)]
      = hexOf ((a :: l).reverse)
    rw [List.reverse_cons, hexOf_append]
    rfl

/-- Frame property of parseAbbr on the caches: wire decoding never touches
them. -/
theorem parseAbbr_cache_frame (b : AbstractBlock) (bs : Bytes)
    (b2 : AbstractBlock) (h : b.parseAbbr bs = .ok b2) :
    b2._hash = b._hash ∧ b2._hhash = b._hhash := by
  unfold AbstractBlock.parseAbbr at h
  repeat' split at h
  all_goals
    first
    | (injection h with h'; subst h'; exact ⟨rfl, rfl⟩)
    | injection h

/-- The hex hash of a header with both caches absent is the rendering of
the digest of its current encoding. -/
theorem hashHex_fresh (H : HashFn) (b : AbstractBlock)
    (hh : b._hash = none) (hx : b._hhash = none) :
    (b.hashHex H).1 = hexOf (H b.abbr) := by
  cases hm : b.mutable
  · have hr := hashRaw_immut H b hh hm
    simp only [AbstractBlock.hashHex, hr, hx]
    split <;> rfl
  · have hr := hashRaw_mut H b hh hm
    simp only [AbstractBlock.hashHex, hr, hx]
    split <;> rfl

/-- C8: parseJSON byte-order-reverses the prevBlock and merkleRoot hash
strings on entry; rhash returns the hex identity hash with byte order
reversed, as a pure function of the hex hash result; hence a header
decoded from wire bytes into a fresh header has reversed hash equal to the
byte reversal of the hex of its identity hash, which is also the hex of
the byte-reversed raw hash. -/
theorem C8_display_symmetry (H : HashFn) (b t : AbstractBlock)
    (o : NakedBlock) (v : Int) (pb mr : Bytes) (ti bi ni : Int)
    (hov : o.version = .num v) (hop : o.prevBlock = .str pb)
    (hom : o.merkleRoot = .str mr) (hot : o.ts = .num ti)
    (hob : o.bits = .num bi) (hon : o.nonce = .num ni)
    (bs : Bytes) (b2 : AbstractBlock)
    (hth : t._hash = none) (htx : t._hhash = none)
    (hdec : t.parseAbbr bs = .ok b2) :
    (∃ bj, b.parseJSON (some o) = .ok bj ∧
      bj.prevBlock = revHex pb ∧ bj.merkleRoot = revHex mr) ∧
    (b.rhash H).1 = revHexStr (b.hashHex H).1 ∧
    (b2.rhash H).1 = revHexStr (hexOf (H b2.abbr)) ∧
    revHexStr (hexOf (H b2.abbr)) = hexOf (revHex (H b2.abbr)) := by
  refine ⟨?_, rfl, ?_, revHexStr_hexOf (H b2.abbr)⟩
  · simp only [AbstractBlock.parseJSON, hov, hop, hom, hot, hob, hon]
    exact ⟨_, rfl, rfl, rfl⟩
  · obtain ⟨f1, f2⟩ := parseAbbr_cache_frame t bs b2 hdec
    rw [hth] at f1
    rw [htx] at f2
    show revHexStr (b2.hashHex H).1 = revHexStr (hexOf (H b2.abbr))
    rw [hashHex_fresh H b2 f1 f2]

/-- The header obtained by wire-decoding the default header's own
canonical encoding into a fresh default header. -/
def wireBlock : AbstractBlock :=
  match AbstractBlock.init.parseAbbr AbstractBlock.init.abbr with
  | .ok b => b
  | .error _ => AbstractBlock.init

theorem C8_display_symmetry_witness :
    (∃ bj, AbstractBlock.init.parseJSON (some staleOpts) = .ok bj ∧
      bj.prevBlock = revHex NULL_HASH ∧ bj.merkleRoot = revHex NULL_HASH) ∧
    (AbstractBlock.init.rhash mockHash256).1 =
      revHexStr (AbstractBlock.init.hashHex mockHash256).1 ∧
    (wireBlock.rhash mockHash256).1 =
      revHexStr (hexOf (mockHash256 wireBlock.abbr)) ∧
    revHexStr (hexOf (mockHash256 wireBlock.abbr)) =
      hexOf (revHex (mockHash256 wireBlock.abbr)) :=
  C8_display_symmetry mockHash256 AbstractBlock.init AbstractBlock.init
    staleOpts 2 NULL_HASH NULL_HASH 0 0 0 rfl rfl rfl rfl rfl rfl
    AbstractBlock.init.abbr wireBlock rfl rfl rfl

/-- An options object with a negative numeric version and otherwise
default-shaped fields. -/
def negOpts : NakedBlock :=
  { version := .num (-1), prevBlock := .str NULL_HASH,
    merkleRoot := .str NULL_HASH, ts := .num 0, bits := .num 0,
    nonce := .num 0, mutable := none }

/-- C9: evaluating the code at the failing input: a negative numeric
version passes the isNumber check of parseOptions and is stored verbatim,
so a construction path yields a header with negative version — against the
source's own documentation that the version is never negative. -/
theorem C9_negative_version_accepted :
    AbstractBlock.init.parseOptions (some negOpts) =
      .ok { AbstractBlock.init with version := -1 } ∧
    ({ AbstractBlock.init with version := -1 } : AbstractBlock).version
      < 0 :=
  ⟨rfl, by decide⟩

/-- C10: parseJSON leaves the mutable flag at its prior value even when
the input object carries a mutable field, while parseOptions sets mutable
from the optional flag when one is present and leaves it unchanged when
absent. -/
theorem C10_mutable_flag_frame (b : AbstractBlock) (o : NakedBlock) :
    (∀ b2, b.parseJSON (some o) = .ok b2 → b2.mutable = b.mutable) ∧
    (∀ m b2, o.mutable = some m → b.parseOptions (some o) = .ok b2 →
      b2.mutable = m) ∧
    (∀ b2, o.mutable = none → b.parseOptions (some o) = .ok b2 →
      b2.mutable = b.mutable) := by
  refine ⟨?_, ?_, ?_⟩
  · intro b2 h
    simp only [AbstractBlock.parseJSON] at h
    split at h
    · injection h with h'
      subst h'
      rfl
    · injection h
  · intro m b2 hm h
    simp only [AbstractBlock.parseOptions] at h
    split at h
    · rw [hm] at h
      injection h with h'
      subst h'
      rfl
    · injection h
  · intro b2 hm h
    simp only [AbstractBlock.parseOptions] at h
    split at h
    · rw [hm] at h
      injection h with h'
      subst h'
      rfl
    · injection h

/-- An options object with all well-typed fields and mutable set true. -/
def mutOpts : NakedBlock :=
  { version := .num 1, prevBlock := .str NULL_HASH,
    merkleRoot := .str NULL_HASH, ts := .num 0, bits := .num 0,
    nonce := .num 0, mutable := some true }

/-- The header built from mutOpts through parseOptions. -/
def mutOptsBlock : AbstractBlock :=
  match AbstractBlock.init.parseOptions (some mutOpts) with
  | .ok b => b
  | .error _ => AbstractBlock.init

/-- The header built from mutOpts through parseJSON. -/
def mutJsonBlock : AbstractBlock :=
  match AbstractBlock.init.parseJSON (some mutOpts) with
  | .ok b => b
  | .error _ => AbstractBlock.init

theorem C10_mutable_flag_frame_witness :
    mutJsonBlock.mutable = AbstractBlock.init.mutable ∧
    mutOptsBlock.mutable = true :=
  ⟨(C10_mutable_flag_frame AbstractBlock.init mutOpts).1 mutJsonBlock rfl,
   (C10_mutable_flag_frame AbstractBlock.init mutOpts).2.1 true
     mutOptsBlock rfl rfl⟩
